import Mathlib

/-!
Verification of the dictionary-based text classifier in
src/streamlit_app.py.

The app classifies each row of an uploaded CSV against user-editable
keyword dictionaries: get_tags lowercases str(text) and returns, in
dictionary iteration order, the categories for which some keyword occurs
as a contiguous substring of the lowered text; the classification step
adds a Tags column (comma-and-space-joined matched names) and one boolean
column per category; the sidebar Save Changes handler parses the edited
JSON and replaces the whole dictionary mapping only on success.

Modelling choices:
  - Python strings are sequences of Unicode code points, modelled as
    List Nat (PyStr).  Python str.lower is modelled on the ASCII range
    (A-Z to a-z), matching every string the program manipulates.
  - Python s1 in s2 substring test is contiguous-infix on code points.
  - pandas cell values are modelled by the inductive type Value; a
    missing cell read from a CSV is a float NaN, and Python str() of
    it is the three-character string nan, which Value.nan reflects.
  - a pandas DataFrame is a Frame: an ordered list of named columns.
    Assignment df[name] = vals replaces the column in place when name
    already exists and appends a new rightmost column otherwise.
  - parsed JSON is the inductive type Json; Python set(v) succeeds
    exactly on iterable JSON values (arrays, strings, objects), yielding
    respectively the elements, the one-character strings, and the keys.
-/

namespace DictApp

/-- A Python string: its sequence of Unicode code points. -/
abbrev PyStr := List Nat

/-- Code points of a Lean string literal, used to transcribe the Python
string literals of the source. -/
def cp (s : String) : PyStr :=
  s.data.map Char.toNat

/-- ASCII model of Python str.lower on one code point: A-Z map to a-z,
everything else is unchanged (mirrors Char.toLower in the source
runtime for the basic latin range). -/
def lowerCP (n : Nat) : Nat :=
  if 65 ≤ n ∧ n ≤ 90 then n + 32 else n

/-- Python str.lower: lowercase every code point. -/
def pyLower (s : PyStr) : PyStr :=
  s.map lowerCP

/-- Python substring test needle in hay (contiguous, not tokenized). -/
def pyContains (hay needle : PyStr) : Bool :=
  decide (needle <:+: hay)

/-- A pandas cell value, as far as the program distinguishes them:
a string, a float NaN (what pandas stores for a missing CSV cell),
a boolean, or an integer. -/
inductive Value where
  | str (s : PyStr)
  | nan
  | bool (b : Bool)
  | int (n : Int)
deriving DecidableEq, Repr

/-- Python str() of a cell value: strings unchanged, str(float nan)
is the string nan, str(True)/str(False), decimal integers. -/
def pyStrOf : Value → PyStr
  | .str s => s
  | .nan => cp "nan"
  | .bool b => if b then cp "True" else cp "False"
  | .int n => cp (toString n)

/-- A dictionary configuration: category name paired with its keyword
set, in dictionary iteration (insertion) order.  Category names are
Python strings; so are keywords.  Keyword order within a category is
irrelevant to the program (only an any-match is taken over it). -/
abbrev Dict := List (PyStr × List PyStr)

/-- Code point 39 (apostrophe), spelled numerically. -/
def apos : Nat := 39

/-- DEFAULT_DICTIONARIES from src/streamlit_app.py lines 31-44:
two categories, urgency_marketing then exclusive_marketing. -/
def DEFAULT_DICTIONARIES : Dict :=
  [(cp "urgency_marketing",
    [cp "limited", cp "limited time", cp "limited run", cp "limited edition",
     cp "order now", cp "last chance", cp "hurry", cp "while supplies last",
     cp "before they" ++ [apos] ++ cp "re gone", cp "selling out",
     cp "selling fast", cp "act now", cp "don" ++ [apos] ++ cp "t wait",
     cp "today only", cp "expires soon", cp "final hours", cp "almost gone"]),
   (cp "exclusive_marketing",
    [cp "exclusive", cp "exclusively", cp "exclusive offer",
     cp "exclusive deal", cp "members only", cp "vip", cp "special access",
     cp "invitation only", cp "premium", cp "privileged",
     cp "limited access", cp "select customers", cp "insider",
     cp "private sale", cp "early access"])]

/-- get_tags from src/streamlit_app.py lines 101-107: lower the string
form of the input once, then collect, in dictionary iteration order,
every category one of whose keywords (used verbatim, NOT lowercased)
occurs as a substring of the lowered text. -/
def get_tags (text : Value) (dicts : Dict) : List PyStr :=
  let lower := pyLower (pyStrOf text)
  (dicts.filter (fun e => e.2.any (fun word => pyContains lower word))).map
    (fun e => e.1)

/-- Python s.join: interleave the separator between the pieces. -/
def pyJoin (sep : PyStr) : List PyStr → PyStr
  | [] => []
  | [s] => s
  | s :: rest => s ++ sep ++ pyJoin sep rest

/-- The Tags cell for one input cell: comma-and-space-joined matched
category names (line 110 of the source). -/
def tagsCell (dicts : Dict) (x : Value) : Value :=
  .str (pyJoin (cp ", ") (get_tags x dicts))

/-- The boolean cell for one category and one input cell: category in
get_tags(x) (line 112 of the source). -/
def boolCell (dicts : Dict) (category : PyStr) (x : Value) : Value :=
  .bool (decide (category ∈ get_tags x dicts))

/-- An ordered list of named columns, each a list of cells: the part of
a pandas DataFrame the program observes. -/
structure Frame where
  cols : List (PyStr × List Value)
deriving DecidableEq, Repr

/-- Column lookup by name (first match). -/
def lookupCol : List (PyStr × List Value) → PyStr → Option (List Value)
  | [], _ => none
  | p :: rest, n => if p.1 = n then some p.2 else lookupCol rest n

/-- df[n] as a read. -/
def getCol (f : Frame) (n : PyStr) : Option (List Value) :=
  lookupCol f.cols n

/-- n in df.columns. -/
def hasCol (f : Frame) (n : PyStr) : Bool :=
  (getCol f n).isSome

/-- df[n] = vs on the column list: replace in place when the name
exists, append a rightmost column otherwise (pandas assignment). -/
def setCols : List (PyStr × List Value) → PyStr → List Value → List (PyStr × List Value)
  | [], n, vs => [(n, vs)]
  | p :: rest, n, vs => if p.1 = n then (n, vs) :: rest else p :: setCols rest n vs

/-- df[n] = vs. -/
def setCol (f : Frame) (n : PyStr) (vs : List Value) : Frame :=
  ⟨setCols f.cols n vs⟩

/-- One iteration of the loop at lines 111-112: read the CURRENT
Statement column and assign the boolean column for one category. -/
def boolStep (dicts : Dict) (f : Frame) (category : PyStr) : Frame :=
  match getCol f (cp "Statement") with
  | some vs => setCol f category (vs.map (boolCell dicts category))
  | none => f

/-- Lines 110-112: assign the Tags column from the Statement column,
then loop over the categories in dictionary order assigning one boolean
column each (each iteration re-reads the current Statement column, as
the source does). -/
def classify (f : Frame) (dicts : Dict) : Frame :=
  match getCol f (cp "Statement") with
  | some vs =>
      (dicts.map Prod.fst).foldl (boolStep dicts)
        (setCol f (cp "Tags") (vs.map (tagsCell dicts)))
  | none => f

/-- The error the run surfaces when the Statement column is missing
(lines 96-98; st.stop() prevents any classification). -/
inductive RunError where
  | schemaError
deriving DecidableEq, Repr

/-- Lines 96-112 of the source: check the schema, stop with an error
when Statement is absent, otherwise classify. -/
def runClassification (f : Frame) (dicts : Dict) : Except RunError Frame :=
  if hasCol f (cp "Statement") then .ok (classify f dicts) else .error .schemaError

/-- A parsed JSON value (result of json.loads). -/
inductive Json where
  | null
  | bool (b : Bool)
  | num (n : Int)
  | str (s : PyStr)
  | arr (elems : List Json)
  | obj (entries : List (PyStr × Json))

/-- Python set(v) on a JSON value: defined exactly on the iterable
values — arrays (their elements), strings (their one-character
substrings), objects (their keys); numbers, booleans and null raise
TypeError, modelled as none.  Deduplication by set is dropped: no use
in the program is sensitive to keyword multiplicity or order. -/
def pySet : Json → Option (List Json)
  | .arr xs => some xs
  | .str s => some (s.map (fun c => Json.str [c]))
  | .obj kvs => some (kvs.map (fun p => Json.str p.1))
  | _ => none

/-- The dict comprehension at line 71, evaluated left to right and
raising at the first non-iterable value. -/
def cleanEntries : List (PyStr × Json) → Except PyStr (List (PyStr × List Json))
  | [] => .ok []
  | (k, v) :: rest =>
      match pySet v with
      | none => .error (cp "TypeError: value is not iterable")
      | some ws => (cleanEntries rest).map (fun d => (k, ws) :: d)

/-- Lines 69-71: parsed_dict.items() requires a JSON object (any other
value raises AttributeError), then each value goes through set(v). -/
def loadDict : Json → Except PyStr (List (PyStr × List Json))
  | .obj kvs => cleanEntries kvs
  | _ => .error (cp "AttributeError: items")

/-- The stored dictionary state (st.session_state, key dictionaries). -/
abbrev DictState := List (PyStr × List Json)

/-- The Save Changes handler, lines 67-75: the argument input is the
result of json.loads on the edited text (error = the parse raised).
The whole body is inside try/except: on any failure the session state
is left untouched and the error is surfaced; on success the state is
replaced wholesale. -/
def saveChanges (prior : DictState) (input : Except PyStr Json) :
    DictState × Option PyStr :=
  match input with
  | .error e => (prior, some (cp "Failed to parse JSON: " ++ e))
  | .ok j =>
      match loadDict j with
      | .error e => (prior, some (cp "Failed to parse JSON: " ++ e))
      | .ok d => (d, none)

/-- Malformed configuration input in the sense of the spec: the text
does not parse, or parses to a non-mapping, or to a mapping with some
non-iterable value. -/
def malformedInput : Except PyStr Json → Prop
  | .error _ => True
  | .ok (.obj kvs) => ∃ p ∈ kvs, pySet p.2 = none
  | .ok _ => True

/-! Helper lemmas about the embedding. -/

theorem mem_get_tags {c : PyStr} {t : Value} {d : Dict} :
    c ∈ get_tags t d ↔
      ∃ e ∈ d, e.1 = c ∧ ∃ w ∈ e.2, w <:+: pyLower (pyStrOf t) := by
  simp only [get_tags, List.mem_map, List.mem_filter, List.any_eq_true,
    pyContains, decide_eq_true_eq]
  constructor
  · rintro ⟨e, ⟨he, w, hw, hinf⟩, rfl⟩
    exact ⟨e, he, rfl, w, hw, hinf⟩
  · rintro ⟨e, he, rfl, w, hw, hinf⟩
    exact ⟨e, ⟨he, w, hw, hinf⟩, rfl⟩

theorem lowerCP_idem (n : Nat) : lowerCP (lowerCP n) = lowerCP n := by
  by_cases h : 65 ≤ n ∧ n ≤ 90
  · have h2 : ¬ (65 ≤ n + 32 ∧ n + 32 ≤ 90) := by omega
    simp [lowerCP, h, h2]
    omega
  · simp [lowerCP, h]

theorem pyLower_eq_self_of_infix_lower {w s : PyStr}
    (h : w <:+: pyLower s) : pyLower w = w := by
  have hsub : ∀ x ∈ w, lowerCP x = x := by
    intro x hx
    have hx2 : x ∈ pyLower s := h.subset hx
    obtain ⟨y, _, rfl⟩ := List.mem_map.mp hx2
    exact lowerCP_idem y
  simp only [pyLower]
  exact (List.map_congr_left hsub).trans (List.map_id w)

theorem lookupCol_setCols_self (l : List (PyStr × List Value)) (n : PyStr)
    (vs : List Value) : lookupCol (setCols l n vs) n = some vs := by
  induction l with
  | nil => simp [setCols, lookupCol]
  | cons p rest ih =>
      by_cases h : p.1 = n
      · simp [setCols, lookupCol, h]
      · simp [setCols, lookupCol, h, ih]

theorem lookupCol_setCols_ne (l : List (PyStr × List Value)) {m n : PyStr}
    (vs : List Value) (h : m ≠ n) :
    lookupCol (setCols l n vs) m = lookupCol l m := by
  induction l with
  | nil => simp [setCols, lookupCol, h, Ne.symm h]
  | cons p rest ih =>
      by_cases hp : p.1 = n
      · subst hp
        simp [setCols, lookupCol, h, Ne.symm h]
      · by_cases hm : p.1 = m
        · simp [setCols, lookupCol, h, hp, hm]
        · simp [setCols, lookupCol, h, hp, hm, ih]

theorem getCol_setCol_self (f : Frame) (n : PyStr) (vs : List Value) :
    getCol (setCol f n vs) n = some vs :=
  lookupCol_setCols_self f.cols n vs

theorem getCol_setCol_ne (f : Frame) {m n : PyStr} (vs : List Value)
    (h : m ≠ n) : getCol (setCol f n vs) m = getCol f m :=
  lookupCol_setCols_ne f.cols vs h

theorem lookupCol_isSome_iff (l : List (PyStr × List Value)) (n : PyStr) :
    (lookupCol l n).isSome ↔ n ∈ l.map Prod.fst := by
  induction l with
  | nil => simp [lookupCol]
  | cons p rest ih =>
      by_cases h : p.1 = n
      · simp [lookupCol, h]
      · simp [lookupCol, h, ih, Ne.symm h]

theorem setCols_fresh (l : List (PyStr × List Value)) {n : PyStr}
    (vs : List Value) (h : n ∉ l.map Prod.fst) :
    setCols l n vs = l ++ [(n, vs)] := by
  induction l with
  | nil => rfl
  | cons p rest ih =>
      simp only [List.map_cons, List.mem_cons] at h
      push_neg at h
      simp [setCols, Ne.symm h.1, ih h.2]

theorem mem_names_of_getCol_eq_some {f : Frame} {n : PyStr}
    {vs : List Value} (h : getCol f n = some vs) :
    n ∈ f.cols.map Prod.fst := by
  refine (lookupCol_isSome_iff f.cols n).mp ?_
  simp only [getCol] at h
  rw [h]
  rfl

theorem foldl_boolStep_getCol (d : Dict) (stmts : List Value)
    (l : List PyStr) (f : Frame)
    (hS : getCol f (cp "Statement") = some stmts)
    (hN : cp "Statement" ∉ l) :
    (∀ n, n ∉ l → getCol (l.foldl (boolStep d) f) n = getCol f n) ∧
    (∀ c ∈ l,
      getCol (l.foldl (boolStep d) f) c = some (stmts.map (boolCell d c))) := by
  induction l generalizing f with
  | nil =>
      exact ⟨fun n _ => rfl, fun c hc => absurd hc (List.not_mem_nil c)⟩
  | cons c l ih =>
      have hcS : c ≠ cp "Statement" := by
        intro e
        exact hN (e ▸ List.mem_cons_self c l)
      have hstep : boolStep d f c = setCol f c (stmts.map (boolCell d c)) := by
        simp [boolStep, hS]
      have hS2 : getCol (boolStep d f c) (cp "Statement") = some stmts := by
        rw [hstep, getCol_setCol_ne _ _ (Ne.symm hcS)]
        exact hS
      have hN2 : cp "Statement" ∉ l := fun h => hN (List.mem_cons_of_mem c h)
      obtain ⟨ihP, ihC⟩ := ih (boolStep d f c) hS2 hN2
      constructor
      · intro n hn
        have hnc : n ≠ c := fun e => hn (e ▸ List.mem_cons_self c l)
        have hnl : n ∉ l := fun h => hn (List.mem_cons_of_mem c h)
        rw [List.foldl_cons, ihP n hnl, hstep, getCol_setCol_ne _ _ hnc]
      · intro c2 hc2
        rcases List.mem_cons.mp hc2 with rfl | hc2l
        · by_cases hcl : c2 ∈ l
          · rw [List.foldl_cons]
            exact ihC c2 hcl
          · rw [List.foldl_cons, ihP c2 hcl, hstep, getCol_setCol_self]
        · rw [List.foldl_cons]
          exact ihC c2 hc2l

theorem foldl_boolStep_cols (d : Dict) (stmts : List Value)
    (l : List PyStr) (f : Frame)
    (hS : getCol f (cp "Statement") = some stmts)
    (hFresh : ∀ c ∈ l, c ∉ f.cols.map Prod.fst)
    (hnd : l.Nodup) :
    (l.foldl (boolStep d) f).cols
      = f.cols ++ l.map (fun c => (c, stmts.map (boolCell d c))) := by
  induction l generalizing f with
  | nil => simp
  | cons c l ih =>
      obtain ⟨hcl, hndl⟩ := List.nodup_cons.mp hnd
      have hcmem : c ∉ f.cols.map Prod.fst := hFresh c (List.mem_cons_self c l)
      have hcS : c ≠ cp "Statement" := by
        intro e
        exact hcmem (e ▸ mem_names_of_getCol_eq_some hS)
      have hstep : boolStep d f c = setCol f c (stmts.map (boolCell d c)) := by
        simp [boolStep, hS]
      have hcols : (boolStep d f c).cols
          = f.cols ++ [(c, stmts.map (boolCell d c))] := by
        rw [hstep]
        exact setCols_fresh f.cols _ hcmem
      have hS2 : getCol (boolStep d f c) (cp "Statement") = some stmts := by
        rw [hstep, getCol_setCol_ne _ _ (Ne.symm hcS)]
        exact hS
      have hFresh2 : ∀ c2 ∈ l, c2 ∉ (boolStep d f c).cols.map Prod.fst := by
        intro c2 hc2
        rw [hcols]
        simp only [List.map_append, List.mem_append, List.map_cons,
          List.map_nil, List.mem_singleton]
        rintro (h1 | h2)
        · exact hFresh c2 (List.mem_cons_of_mem c hc2) h1
        · exact hcl (h2 ▸ hc2)
      rw [List.foldl_cons, ih (boolStep d f c) hS2 hFresh2 hndl, hcols]
      simp

/-! Claim theorems. -/

/-- Rendering of claim C1 matching rule, following the words of the spec:
a category is matched when at least one of its keywords, AFTER
lowercasing the keyword, occurs as a contiguous substring of the
lowercased string form of the input. -/
def specLowerKeywordMatched (text : Value) (d : Dict) (c : PyStr) : Prop :=
  ∃ e ∈ d, e.1 = c ∧ ∃ w ∈ e.2, pyLower w <:+: pyLower (pyStrOf text)

instance (text : Value) (d : Dict) (c : PyStr) :
    Decidable (specLowerKeywordMatched text d c) := by
  unfold specLowerKeywordMatched
  infer_instance

/-- Claim C1 as stated is false: get_tags lowercases only the text, not
the keyword (line 105 uses word verbatim).  With the single keyword VIP
and the input vip the rule of the spec matches the category, but the code
does not. -/
theorem c1_counterexample :
    ¬ ((cp "c") ∈ get_tags (.str (cp "vip")) [(cp "c", [cp "VIP"])] ↔
        specLowerKeywordMatched (.str (cp "vip")) [(cp "c", [cp "VIP"])]
          (cp "c")) := by
  decide

/-- Claim C1 amended: a category is in the matched output iff at least
one of its keywords, used VERBATIM (not lowercased), occurs as a
contiguous substring of the lowercased string form of the input. -/
theorem c1_amended_matching (text : Value) (d : Dict) (c : PyStr) :
    c ∈ get_tags text d ↔
      ∃ e ∈ d, e.1 = c ∧ ∃ w ∈ e.2, w <:+: pyLower (pyStrOf text) :=
  mem_get_tags

/-- Claim C2 as stated is false: a missing value is a float NaN whose
str() is the three-character string nan, not the empty string.  The
dictionary whose single (non-empty) keyword is an matches it. -/
theorem c2_counterexample :
    get_tags .nan [(cp "c", [cp "an"])] = [cp "c"] ∧
      cp "an" ≠ ([] : PyStr) := by
  decide

/-- Claim C2 amended: a missing value is coerced to the string nan, so
it matches nothing whenever no keyword of the dictionary is a substring
of nan. -/
theorem c2_amended_missing (d : Dict)
    (h : ∀ e ∈ d, ∀ w ∈ e.2, ¬ w <:+: cp "nan") :
    get_tags .nan d = [] := by
  rw [List.eq_nil_iff_forall_not_mem]
  intro c hc
  obtain ⟨e, he, _, w, hw, hinf⟩ := mem_get_tags.mp hc
  have hnan : pyLower (pyStrOf Value.nan) = cp "nan" := by decide
  rw [hnan] at hinf
  exact h e he w hw hinf

/-- Witness for the amended claim C2 at a concrete dictionary. -/
theorem c2_amended_missing_witness :
    (∀ e ∈ ([(cp "c", [cp "x"])] : Dict), ∀ w ∈ e.2, ¬ w <:+: cp "nan") ∧
      get_tags .nan [(cp "c", [cp "x"])] = [] :=
  ⟨by decide, c2_amended_missing [(cp "c", [cp "x"])] (by decide)⟩

theorem cleanEntries_isError {kvs : List (PyStr × Json)}
    (h : ∃ p ∈ kvs, pySet p.2 = none) :
    ∃ e, cleanEntries kvs = .error e := by
  induction kvs with
  | nil => simp at h
  | cons q rest ih =>
      obtain ⟨p, hp, hnone⟩ := h
      rcases List.mem_cons.mp hp with rfl | hrest
      · refine ⟨cp "TypeError: value is not iterable", ?_⟩
        simp [cleanEntries, hnone]
      · cases hq : pySet q.2 with
        | none =>
            refine ⟨cp "TypeError: value is not iterable", ?_⟩
            simp [cleanEntries, hq]
        | some ws =>
            obtain ⟨e, he⟩ := ih ⟨p, hrest, hnone⟩
            refine ⟨e, ?_⟩
            simp only [cleanEntries, hq, he]
            rfl

/-- Claim C3: for every prior dictionary state and every malformed
configuration input (parse failure, parsed value not a mapping, or a
mapping with a non-iterable value), the Save Changes handler surfaces a
configuration error and leaves the stored state exactly as before. -/
theorem c3_save_atomic (prior : DictState) (input : Except PyStr Json)
    (h : malformedInput input) :
    (saveChanges prior input).1 = prior ∧
      ((saveChanges prior input).2).isSome := by
  cases input with
  | error e => exact ⟨rfl, rfl⟩
  | ok j =>
      cases j with
      | obj kvs =>
          obtain ⟨e, he⟩ := cleanEntries_isError h
          constructor
          · simp [saveChanges, loadDict, he]
          · simp [saveChanges, loadDict, he]
      | null => exact ⟨rfl, rfl⟩
      | bool b => exact ⟨rfl, rfl⟩
      | num n => exact ⟨rfl, rfl⟩
      | str s => exact ⟨rfl, rfl⟩
      | arr xs => exact ⟨rfl, rfl⟩

/-- Witness for claim C3 at a concrete malformed input (a number is not
a mapping). -/
theorem c3_save_atomic_witness :
    malformedInput (.ok (.num 3)) ∧
      ((saveChanges [] (.ok (.num 3))).1 = [] ∧
        ((saveChanges [] (.ok (.num 3))).2).isSome) :=
  ⟨trivial, c3_save_atomic [] (.ok (.num 3)) trivial⟩

/-- Claim C4 as stated is false: when a category is itself named Tags,
the boolean assignment of the loop overwrites the Tags column in place,
so the final Tags field holds the boolean True instead of the joined
matched names (here the string Tags). -/
theorem c4_counterexample :
    getCol (classify ⟨[(cp "Statement", [.str (cp "a")])]⟩
        [(cp "Tags", [cp "a"])]) (cp "Tags")
      ≠ some ([Value.str (cp "a")].map (tagsCell [(cp "Tags", [cp "a"])])) ∧
    getCol (classify ⟨[(cp "Statement", [.str (cp "a")])]⟩
        [(cp "Tags", [cp "a"])]) (cp "Tags")
      = some [Value.bool true] := by
  decide

/-- Claim C4 amended: for every dataset containing the Statement column
and every dictionary in which no category is named Tags or Statement,
classify sets the Tags column to the comma-and-space-joined matched
category names per record (empty when none match) and sets each
per-category boolean column to true exactly when that category is in
the matched set of that record; the two are therefore mutually consistent. -/
theorem c4_amended_columns (f : Frame) (d : Dict) (stmts : List Value)
    (hS : getCol f (cp "Statement") = some stmts)
    (hT : cp "Tags" ∉ d.map Prod.fst)
    (hSt : cp "Statement" ∉ d.map Prod.fst) :
    getCol (classify f d) (cp "Tags") = some (stmts.map (tagsCell d)) ∧
    ∀ c ∈ d.map Prod.fst,
      getCol (classify f d) c = some (stmts.map (boolCell d c)) := by
  have hcl : classify f d
      = (d.map Prod.fst).foldl (boolStep d)
          (setCol f (cp "Tags") (stmts.map (tagsCell d))) := by
    simp [classify, hS]
  have hS1 : getCol (setCol f (cp "Tags") (stmts.map (tagsCell d)))
      (cp "Statement") = some stmts := by
    rw [getCol_setCol_ne _ _ (by decide : cp "Statement" ≠ cp "Tags")]
    exact hS
  obtain ⟨hP, hC⟩ := foldl_boolStep_getCol d stmts (d.map Prod.fst)
    (setCol f (cp "Tags") (stmts.map (tagsCell d))) hS1 hSt
  constructor
  · rw [hcl, hP _ hT, getCol_setCol_self]
  · intro c hc
    rw [hcl]
    exact hC c hc

/-- Witness for the amended claim C4 at a concrete frame and
dictionary. -/
theorem c4_amended_columns_witness :
    getCol (⟨[(cp "Statement", [.str (cp "a")])]⟩ : Frame) (cp "Statement")
        = some [.str (cp "a")] ∧
    cp "Tags" ∉ ([(cp "c", [cp "a"])] : Dict).map Prod.fst ∧
    cp "Statement" ∉ ([(cp "c", [cp "a"])] : Dict).map Prod.fst ∧
    (getCol (classify ⟨[(cp "Statement", [.str (cp "a")])]⟩
          [(cp "c", [cp "a"])]) (cp "Tags")
        = some ([Value.str (cp "a")].map (tagsCell [(cp "c", [cp "a"])])) ∧
      ∀ c ∈ ([(cp "c", [cp "a"])] : Dict).map Prod.fst,
        getCol (classify ⟨[(cp "Statement", [.str (cp "a")])]⟩
            [(cp "c", [cp "a"])]) c
          = some ([Value.str (cp "a")].map
              (boolCell [(cp "c", [cp "a"])] c))) :=
  ⟨by decide, by decide, by decide,
    c4_amended_columns ⟨[(cp "Statement", [.str (cp "a")])]⟩
      [(cp "c", [cp "a"])] [.str (cp "a")]
      (by decide) (by decide) (by decide)⟩

/-- Claim C5 as stated is false: when the input dataset already has a
Tags column, the assignment overwrites it in place, so its original
value is not preserved (here x becomes the empty string). -/
theorem c5_counterexample :
    getCol (classify
        ⟨[(cp "Statement", [.str (cp "a")]), (cp "Tags", [.str (cp "x")])]⟩
        [(cp "c", [cp "zzz"])]) (cp "Tags")
      ≠ getCol
        (⟨[(cp "Statement", [.str (cp "a")]),
           (cp "Tags", [.str (cp "x")])]⟩ : Frame) (cp "Tags") := by
  decide

/-- Claim C5 amended: provided the original column names do not include
Tags or any category name, no category is itself named Tags, and the
category names are pairwise distinct (as keys of one dict they are),
the output keeps every original column with its value unchanged and its
column order is the original columns, then Tags, then one boolean
column per category in dictionary iteration order. -/
theorem c5_amended_shape (f : Frame) (d : Dict) (stmts : List Value)
    (hS : getCol f (cp "Statement") = some stmts)
    (hT : cp "Tags" ∉ f.cols.map Prod.fst)
    (hdisj : ∀ c ∈ d.map Prod.fst, c ∉ f.cols.map Prod.fst ∧ c ≠ cp "Tags")
    (hnd : (d.map Prod.fst).Nodup) :
    (classify f d).cols.map Prod.fst
        = f.cols.map Prod.fst ++ cp "Tags" :: d.map Prod.fst ∧
    ∀ n ∈ f.cols.map Prod.fst, getCol (classify f d) n = getCol f n := by
  have hcl : classify f d
      = (d.map Prod.fst).foldl (boolStep d)
          (setCol f (cp "Tags") (stmts.map (tagsCell d))) := by
    simp [classify, hS]
  have hf1cols : (setCol f (cp "Tags") (stmts.map (tagsCell d))).cols
      = f.cols ++ [(cp "Tags", stmts.map (tagsCell d))] :=
    setCols_fresh f.cols _ hT
  have hS1 : getCol (setCol f (cp "Tags") (stmts.map (tagsCell d)))
      (cp "Statement") = some stmts := by
    rw [getCol_setCol_ne _ _ (by decide : cp "Statement" ≠ cp "Tags")]
    exact hS
  have hSt : cp "Statement" ∉ d.map Prod.fst := fun h =>
    (hdisj _ h).1 (mem_names_of_getCol_eq_some hS)
  have hFresh : ∀ c ∈ d.map Prod.fst,
      c ∉ (setCol f (cp "Tags") (stmts.map (tagsCell d))).cols.map Prod.fst := by
    intro c hc
    rw [hf1cols]
    simp only [List.map_append, List.mem_append, List.map_cons,
      List.map_nil, List.mem_singleton]
    rintro (h1 | h2)
    · exact (hdisj c hc).1 h1
    · exact (hdisj c hc).2 h2
  constructor
  · rw [hcl, foldl_boolStep_cols d stmts (d.map Prod.fst) _ hS1 hFresh hnd,
      hf1cols]
    simp [Function.comp_def]
  · intro n hn
    have hnT : n ≠ cp "Tags" := fun e => hT (e ▸ hn)
    have hnK : n ∉ d.map Prod.fst := fun h => (hdisj n h).1 hn
    obtain ⟨hP, _⟩ := foldl_boolStep_getCol d stmts (d.map Prod.fst)
      (setCol f (cp "Tags") (stmts.map (tagsCell d))) hS1 hSt
    rw [hcl, hP n hnK, getCol_setCol_ne _ _ hnT]

/-- Witness for the amended claim C5 at a concrete frame and
dictionary. -/
theorem c5_amended_shape_witness :
    getCol (⟨[(cp "Statement", [.str (cp "a")])]⟩ : Frame) (cp "Statement")
        = some [.str (cp "a")] ∧
    cp "Tags" ∉ (⟨[(cp "Statement", [.str (cp "a")])]⟩ : Frame).cols.map
        Prod.fst ∧
    (∀ c ∈ ([(cp "c", [cp "a"])] : Dict).map Prod.fst,
      c ∉ (⟨[(cp "Statement", [.str (cp "a")])]⟩ : Frame).cols.map Prod.fst ∧
        c ≠ cp "Tags") ∧
    (([(cp "c", [cp "a"])] : Dict).map Prod.fst).Nodup ∧
    ((classify ⟨[(cp "Statement", [.str (cp "a")])]⟩
          [(cp "c", [cp "a"])]).cols.map Prod.fst
        = (⟨[(cp "Statement", [.str (cp "a")])]⟩ : Frame).cols.map Prod.fst
            ++ cp "Tags" :: ([(cp "c", [cp "a"])] : Dict).map Prod.fst ∧
      ∀ n ∈ (⟨[(cp "Statement", [.str (cp "a")])]⟩ : Frame).cols.map Prod.fst,
        getCol (classify ⟨[(cp "Statement", [.str (cp "a")])]⟩
            [(cp "c", [cp "a"])]) n
          = getCol (⟨[(cp "Statement", [.str (cp "a")])]⟩ : Frame) n) :=
  ⟨by decide, by decide, by decide, by decide,
    c5_amended_shape ⟨[(cp "Statement", [.str (cp "a")])]⟩
      [(cp "c", [cp "a"])] [.str (cp "a")]
      (by decide) (by decide) (by decide) (by decide)⟩

/-- Claim C6: when the required Statement column is absent, the run
fails with the schema error before classifying anything; the result
carries no output frame at all. -/
theorem c6_missing_statement (f : Frame) (d : Dict)
    (h : hasCol f (cp "Statement") = false) :
    runClassification f d = .error .schemaError := by
  simp [runClassification, h]

/-- Witness for claim C6 at a concrete frame without a Statement
column. -/
theorem c6_missing_statement_witness :
    hasCol ⟨[(cp "Other", [])]⟩ (cp "Statement") = false ∧
      runClassification ⟨[(cp "Other", [])]⟩ [] = .error .schemaError :=
  ⟨by decide, c6_missing_statement ⟨[(cp "Other", [])]⟩ [] (by decide)⟩

/-- Claim C7 (soundness of the match output): every name returned by
get_tags names a dictionary entry whose keyword set is non-empty and
contains a keyword that is case-insensitively a substring of the text
(the lowered keyword is a substring of the lowered text).  The code
matches the verbatim keyword against the lowered text; soundness holds
because a substring of a lowered text is itself already lowercase. -/
theorem c7_soundness (text : Value) (d : Dict) (c : PyStr)
    (h : c ∈ get_tags text d) :
    ∃ e ∈ d, e.1 = c ∧ e.2 ≠ [] ∧
      ∃ w ∈ e.2, pyLower w <:+: pyLower (pyStrOf text) := by
  obtain ⟨e, he, hc, w, hw, hinf⟩ := mem_get_tags.mp h
  refine ⟨e, he, hc, ?_, w, hw, ?_⟩
  · intro hnil
    rw [hnil] at hw
    exact (List.not_mem_nil w) hw
  · rw [pyLower_eq_self_of_infix_lower hinf]
    exact hinf

/-- Witness for claim C7 at a concrete matched category. -/
theorem c7_soundness_witness :
    (cp "urgency_marketing")
        ∈ get_tags (.str (cp "Hurry now")) DEFAULT_DICTIONARIES ∧
      ∃ e ∈ DEFAULT_DICTIONARIES, e.1 = cp "urgency_marketing" ∧
        e.2 ≠ [] ∧
        ∃ w ∈ e.2,
          pyLower w <:+: pyLower (pyStrOf (.str (cp "Hurry now"))) :=
  ⟨by decide,
    c7_soundness (.str (cp "Hurry now")) DEFAULT_DICTIONARIES
      (cp "urgency_marketing") (by decide)⟩

/-- Claim C8: classification is a pure function of the input dataset
and the dictionary snapshot (the snapshot is passed in explicitly and
nothing else flows in), so a second run on the same input under the
same snapshot yields a Tags column and per-category boolean columns
identical to those of the first run. -/
theorem c8_second_run (f1 f2 : Frame) (d : Dict) (hf : f1 = f2) :
    getCol (classify f1 d) (cp "Tags") = getCol (classify f2 d) (cp "Tags") ∧
    ∀ c ∈ d.map Prod.fst,
      getCol (classify f1 d) c = getCol (classify f2 d) c := by
  subst hf
  exact ⟨rfl, fun _ _ => rfl⟩

/-- Witness for claim C8 at a concrete frame and the default
dictionaries. -/
theorem c8_second_run_witness :
    (⟨[(cp "Statement", [Value.str (cp "hurry")])]⟩ : Frame)
        = (⟨[(cp "Statement", [Value.str (cp "hurry")])]⟩ : Frame) ∧
    (getCol (classify ⟨[(cp "Statement", [Value.str (cp "hurry")])]⟩
          DEFAULT_DICTIONARIES) (cp "Tags")
        = getCol (classify ⟨[(cp "Statement", [Value.str (cp "hurry")])]⟩
          DEFAULT_DICTIONARIES) (cp "Tags") ∧
      ∀ c ∈ DEFAULT_DICTIONARIES.map Prod.fst,
        getCol (classify ⟨[(cp "Statement", [Value.str (cp "hurry")])]⟩
            DEFAULT_DICTIONARIES) c
          = getCol (classify ⟨[(cp "Statement", [Value.str (cp "hurry")])]⟩
            DEFAULT_DICTIONARIES) c) :=
  ⟨rfl,
    c8_second_run ⟨[(cp "Statement", [Value.str (cp "hurry")])]⟩
      ⟨[(cp "Statement", [Value.str (cp "hurry")])]⟩
      DEFAULT_DICTIONARIES rfl⟩

/-- Claim C9: under the default dictionaries, any text whose lowered
form contains both hurry and vip matches exactly the two categories, in
dictionary iteration order, and the joined Tags value is the fourteen-
plus-twenty-character string urgency_marketing, exclusive_marketing. -/
theorem c9_default_multi (t : PyStr)
    (h1 : cp "hurry" <:+: pyLower t)
    (h2 : cp "vip" <:+: pyLower t) :
    get_tags (.str t) DEFAULT_DICTIONARIES
        = [cp "urgency_marketing", cp "exclusive_marketing"] ∧
    pyJoin (cp ", ") (get_tags (.str t) DEFAULT_DICTIONARIES)
        = cp "urgency_marketing, exclusive_marketing" := by
  have hp : ∀ e ∈ DEFAULT_DICTIONARIES,
      (e.2.any fun w => pyContains (pyLower (pyStrOf (.str t))) w)
        = true := by
    intro e he
    simp only [DEFAULT_DICTIONARIES, List.mem_cons, List.not_mem_nil,
      or_false] at he
    rcases he with rfl | rfl
    · exact List.any_eq_true.mpr ⟨cp "hurry", by decide, decide_eq_true h1⟩
    · exact List.any_eq_true.mpr ⟨cp "vip", by decide, decide_eq_true h2⟩
  have hmain : get_tags (.str t) DEFAULT_DICTIONARIES
      = [cp "urgency_marketing", cp "exclusive_marketing"] := by
    show (DEFAULT_DICTIONARIES.filter
        (fun e => e.2.any fun w =>
          pyContains (pyLower (pyStrOf (.str t))) w)).map (fun e => e.1)
      = _
    rw [List.filter_eq_self.mpr hp]
    rfl
  exact ⟨hmain, by rw [hmain]; decide⟩

/-- Witness for claim C9 at a concrete text containing Hurry and VIP in
mixed case. -/
theorem c9_default_multi_witness :
    cp "hurry" <:+: pyLower (cp "Hurry! VIP access") ∧
    cp "vip" <:+: pyLower (cp "Hurry! VIP access") ∧
    (get_tags (.str (cp "Hurry! VIP access")) DEFAULT_DICTIONARIES
        = [cp "urgency_marketing", cp "exclusive_marketing"] ∧
      pyJoin (cp ", ")
          (get_tags (.str (cp "Hurry! VIP access")) DEFAULT_DICTIONARIES)
        = cp "urgency_marketing, exclusive_marketing") :=
  ⟨by decide, by decide,
    c9_default_multi (cp "Hurry! VIP access") (by decide) (by decide)⟩

/-- Claim C10: an empty-string keyword is an infix of every lowered
text, so its category is in the matched output for every input; and
the Save Changes path accepts a configuration containing an empty
keyword without rejecting or skipping it. -/
theorem c10_empty_keyword (text : Value) (d : Dict) (c : PyStr)
    (ws : List PyStr) (he : (c, ws) ∈ d) (hk : ([] : PyStr) ∈ ws) :
    c ∈ get_tags text d ∧
    loadDict (.obj [(cp "k", .arr [.str []])])
        = .ok [(cp "k", [.str []])] :=
  ⟨mem_get_tags.mpr ⟨(c, ws), he, rfl, [], hk, List.nil_infix⟩, rfl⟩

/-- Witness for claim C10 at a concrete dictionary with an empty
keyword and the empty text. -/
theorem c10_empty_keyword_witness :
    ((cp "c", [([] : PyStr)]) ∈ ([(cp "c", [([] : PyStr)])] : Dict)) ∧
    (([] : PyStr) ∈ [([] : PyStr)]) ∧
    (cp "c" ∈ get_tags (.str []) [(cp "c", [([] : PyStr)])] ∧
      loadDict (.obj [(cp "k", .arr [.str []])])
        = .ok [(cp "k", [.str []])]) :=
  ⟨by decide, by decide,
    c10_empty_keyword (.str []) [(cp "c", [([] : PyStr)])] (cp "c")
      [([] : PyStr)] (by decide) (by decide)⟩

end DictApp
